import Mathlib

/- Verification of the FreeWise review-selection engine and review-session
state machine, shallowly embedded from app/routers/highlights.py over the
data model of app/models.py.  Timestamps (datetime values) are modelled as
real numbers counting seconds; `delta.total_seconds()` becomes real
subtraction.  Calendar dates are modelled as integers (day numbers).
Randomness (random.random / random.choice) is modelled as explicit input
streams, so every theorem quantifies over all possible random draws. -/

namespace FreeWise

/- Data model (app/models.py).  Only the fields the review core reads are
carried.  `review_weight` is an Option because get_book_weight defends
against an unset value. -/

structure Book where
  review_weight : Option ℝ

structure Highlight where
  id : Nat
  book_id : Option Nat
  book : Option Book
  created_at : Option ℝ
  last_reviewed_at : Option ℝ
  status : String
  favorite : Bool
  is_favorited : Bool
  is_discarded : Bool
  review_count : Nat

/- One entry of the in-memory review_sessions dict:
{"highlight_ids": [int], "current_index": int, "timestamp": datetime}. -/
structure MemSession where
  highlight_ids : List Nat
  current_index : Nat
  timestamp : ℝ

/- The durable ReviewSession row (app/models.py). -/
structure ReviewSession where
  user_id : Nat
  session_uuid : String
  started_at : ℝ
  completed_at : Option ℝ
  session_date : ℤ
  target_count : Nat
  highlights_reviewed : Nat
  highlights_discarded : Nat
  highlights_favorited : Nat
  is_completed : Bool

/- Whole program state: the highlight table, the ReviewSession table and the
process-wide in-memory review_sessions store. -/
structure AppState where
  highlights : List Highlight
  sessions : List ReviewSession
  mem : String → Option MemSession

noncomputable instance : DecidableEq Book := Classical.decEq _

noncomputable instance : DecidableEq Highlight := Classical.decEq _

/- ============ Selector (get_review_highlights, lines 194-293) ============ -/

/- The DB query: active, non-discarded highlights. -/
def eligible_highlights (db : List Highlight) : List Highlight :=
  db.filter fun h => (h.status == "active") && (h.is_discarded == false)

def tau_days : ℝ := 14.0

noncomputable def get_book_weight (h : Highlight) : ℝ :=
  match h.book with
  | some b =>
    match b.review_weight with
    | some w => max 0 w
    | none => 1
  | none => 1

noncomputable def get_days_since (now : ℝ) (h : Highlight) : ℝ :=
  match h.last_reviewed_at.orElse (fun _ => h.created_at) with
  | none => 30
  | some anchor => max 0 ((now - anchor) / 86400)

noncomputable def time_score (days : ℝ) : ℝ :=
  1 - Real.exp (-days / tau_days)

/- The candidate score: timeScore * resolved book weight. -/
noncomputable def score_of (now : ℝ) (h : Highlight) : ℝ :=
  time_score (get_days_since now h) * get_book_weight h

/- A candidate tuple (h, score, book_id) as appended by the source loop. -/
abbrev Cand := Highlight × ℝ × Option Nat

/- One iteration of the candidate-building loop: skip weight <= 0, skip
score <= 0, otherwise keep (h, score, book_id). -/
noncomputable def candidate_entry (now : ℝ) (h : Highlight) : Option Cand :=
  if get_book_weight h ≤ 0 then none
  else if time_score (get_days_since now h) * get_book_weight h ≤ 0 then none
  else some (h, time_score (get_days_since now h) * get_book_weight h, h.book_id)

noncomputable def candidates (now : ℝ) (hs : List Highlight) : List Cand :=
  hs.filterMap (candidate_entry now)

/- The random source: the k-th weighted_pick call reads random.random() as
r01 k and, on the zero-total fallback, random.choice as the index choice k
(taken modulo the list length). -/
structure Rand where
  r01 : ℕ → ℝ
  choice : ℕ → ℕ

/- The prefix-sum walk of weighted_pick: upto accumulates scores; the first
item with upto >= r is returned, and items[-1] if the loop falls through. -/
noncomputable def pick_walk (r : ℝ) : ℝ → List Cand → Option Cand
  | _, [] => none
  | upto, c :: rest =>
    if upto + c.2.1 ≥ r then some c
    else
      match rest with
      | [] => some c
      | _ :: _ => pick_walk r (upto + c.2.1) rest

/- weighted_pick (lines 263-273): none is returned only on an empty list
(where the source would raise). -/
noncomputable def weighted_pick (items : List Cand) (r01 : ℝ) (fb : ℕ) :
    Option Cand :=
  let total := (items.map fun c => c.2.1).sum
  if total ≤ 0 then items.get? (fb % items.length)
  else pick_walk (r01 * total) 0 items

def max_per_book (n : ℕ) : ℕ := if 4 ≤ n then 2 else 1

/- State of the sampling loops: selected, book_counts, remaining, and the
cursor into the random streams. -/
structure SelState where
  selected : List Highlight
  book_counts : Option Nat → Nat
  remaining : List Cand
  t : Nat

/- First while loop (lines 277-284): capped weighted sampling.  Fuel is the
length of the remaining pool; each iteration removes one candidate, so the
fuel never runs out before the loop condition fails.  weighted_pick returns
none exactly when the eligible list is empty, which is the source break. -/
noncomputable def cap_phase (rng : Rand) (n cap : ℕ) : ℕ → SelState → SelState
  | 0, st => st
  | fuel + 1, st =>
    if st.selected.length < n then
      match st.remaining with
      | [] => st
      | _ :: _ =>
        match weighted_pick
            (st.remaining.filter fun c => decide (st.book_counts c.2.2 < cap))
            (rng.r01 st.t) (rng.choice st.t) with
        | none => st
        | some pick =>
          cap_phase rng n cap fuel
            { selected := st.selected ++ [pick.1]
              book_counts := fun b =>
                if b = pick.2.2 then st.book_counts b + 1 else st.book_counts b
              remaining := st.remaining.erase pick
              t := st.t + 1 }
    else st

/- Second while loop (lines 287-291): fill remaining slots ignoring the
per-book cap. -/
noncomputable def relax_phase (rng : Rand) (n : ℕ) : ℕ → SelState → SelState
  | 0, st => st
  | fuel + 1, st =>
    if st.selected.length < n then
      match st.remaining with
      | [] => st
      | _ :: _ =>
        match weighted_pick st.remaining (rng.r01 st.t) (rng.choice st.t) with
        | none => st
        | some pick =>
          relax_phase rng n fuel
            { selected := st.selected ++ [pick.1]
              book_counts := st.book_counts
              remaining := st.remaining.erase pick
              t := st.t + 1 }
    else st

noncomputable def sel_candidates (now : ℝ) (db : List Highlight) : List Cand :=
  candidates now (eligible_highlights db)

noncomputable def init_state (now : ℝ) (db : List Highlight) : SelState :=
  { selected := [], book_counts := fun _ => 0
    remaining := sel_candidates now db, t := 0 }

noncomputable def cap_state (rng : Rand) (now : ℝ) (n : ℕ)
    (db : List Highlight) : SelState :=
  cap_phase rng n (max_per_book n) (sel_candidates now db).length
    (init_state now db)

noncomputable def final_state (rng : Rand) (now : ℝ) (n : ℕ)
    (db : List Highlight) : SelState :=
  relax_phase rng n (cap_state rng now n db).remaining.length
    (cap_state rng now n db)

/- get_review_highlights: query, score, capped sampling, relaxed fill. -/
noncomputable def get_review_highlights (rng : Rand) (now : ℝ) (n : ℕ)
    (db : List Highlight) : List Highlight :=
  if (eligible_highlights db).isEmpty then []
  else if (sel_candidates now db).isEmpty then []
  else (final_state rng now n db).selected

/- The relaxation loop runs precisely when the capped phase stopped short of
n with candidates still in the pool. -/
noncomputable def relax_entered (rng : Rand) (now : ℝ) (n : ℕ)
    (db : List Highlight) : Prop :=
  (cap_state rng now n db).selected.length < n ∧
    (cap_state rng now n db).remaining ≠ []

/- Number of selected highlights attributed to book b. -/
def countBook (b : Option Nat) (l : List Highlight) : Nat :=
  l.countP fun h => decide (h.book_id = b)

/- ============ Session manager and highlight operations ============ -/

def lookup_highlight (hs : List Highlight) (id : Nat) : Option Highlight :=
  hs.find? fun h => h.id == id

/- session.add/commit on a row fetched by primary key: replace the row with
that id. -/
def update_highlight (hs : List Highlight) (id : Nat) (h' : Highlight) :
    List Highlight :=
  hs.map fun h => if h.id = id then h' else h

/- select(ReviewSession).where(session_uuid == t) ... .first() -/
def find_row (rows : List ReviewSession) (t : String) : Option ReviewSession :=
  rows.find? fun r => r.session_uuid == t

def update_row (rows : List ReviewSession) (t : String)
    (f : ReviewSession → ReviewSession) : List ReviewSession :=
  rows.map fun r => if r.session_uuid = t then f r else r

def ctx_review : String := "review"

def msg_not_found : String := "Highlight not found"

def msg_favorite_discarded : String :=
  "Cannot favorite a discarded highlight. Restore it first."

/- toggle_favorite (JSON API, lines 151-171).  A raised HTTPException leaves
the database untouched, so the error case returns the input list. -/
def toggle_favorite (hs : List Highlight) (id : Nat) (fav : Bool) :
    List Highlight × Except String Highlight :=
  match lookup_highlight hs id with
  | none => (hs, .error msg_not_found)
  | some h =>
    if fav && h.is_discarded then (hs, .error msg_favorite_discarded)
    else
      let h' := { h with favorite := fav, is_favorited := fav }
      (update_highlight hs id h', .ok h')

/- discard_highlight (JSON API, lines 174-191): always sets discarded and
auto-unfavorites. -/
def discard_highlight (hs : List Highlight) (id : Nat) :
    List Highlight × Except String Highlight :=
  match lookup_highlight hs id with
  | none => (hs, .error msg_not_found)
  | some h =>
    let h1 :=
      if h.favorite || h.is_favorited then
        { h with favorite := false, is_favorited := false }
      else h
    let h2 := { h1 with status := "discarded", is_discarded := true }
    (update_highlight hs id h2, .ok h2)

/- What ui_review_next sends back: the completion card, the next review
card, or the session-expired fallback. -/
inductive NextView where
  | completedView : NextView
  | card : Highlight → Nat → Nat → NextView
  | expiredView : NextView

/- Queue advancement shared by ui_review_next (lines 424-468) and the
review-context branch of discard_highlight_html (lines 774-818): increment
the cursor; at the end of the queue finalize the durable row and drop the
in-memory entry, otherwise store the new cursor and show the next card. -/
def advance_queue (st : AppState) (t : String) (now : ℝ) :
    AppState × NextView :=
  match st.mem t with
  | none => (st, .expiredView)
  | some ms =>
    let ms1 := { ms with current_index := ms.current_index + 1 }
    if ms1.highlight_ids.length ≤ ms1.current_index then
      ({ st with
          sessions := update_row st.sessions t fun r =>
            { r with completed_at := some now, is_completed := true }
          mem := fun s => if s = t then none else st.mem s },
        .completedView)
    else
      let st1 := { st with mem := fun s => if s = t then some ms1 else st.mem s }
      match ms1.highlight_ids.get? ms1.current_index with
      | none => (st1, .expiredView)
      | some hid =>
        match lookup_highlight st1.highlights hid with
        | none => (st1, .expiredView)
        | some nh =>
          (st1, .card nh (ms1.current_index + 1) ms1.highlight_ids.length)

/- ui_review_next (lines 396-485): mark the current highlight reviewed,
increment the durable highlights_reviewed counter, then advance the
in-memory queue if the token is known. -/
def ui_review_next (st : AppState) (current_id : Nat)
    (tok : Option String) (now : ℝ) : AppState × NextView :=
  let highlights1 :=
    match lookup_highlight st.highlights current_id with
    | some h =>
      update_highlight st.highlights current_id
        { h with last_reviewed_at := some now, review_count := h.review_count + 1 }
    | none => st.highlights
  let sessions1 :=
    match tok with
    | some t =>
      update_row st.sessions t fun r =>
        { r with highlights_reviewed := r.highlights_reviewed + 1 }
    | none => st.sessions
  let st1 : AppState := { st with highlights := highlights1, sessions := sessions1 }
  match tok with
  | some t =>
    match st1.mem t with
    | some _ => advance_queue st1 t now
    | none => (st1, .expiredView)
  | none => (st1, .expiredView)

/- What ui_review renders: the issued token, the current highlight (if the
cursor is inside the queue), and the 1-based position / total. -/
structure ReviewView where
  token : String
  highlight : Option Highlight
  current : Nat
  total : Nat

def new_row (fresh : String) (now : ℝ) (today : ℤ) (n : ℕ) : ReviewSession :=
  { user_id := 1, session_uuid := fresh, started_at := now
    completed_at := none, session_date := today, target_count := n
    highlights_reviewed := 0, highlights_discarded := 0
    highlights_favorited := 0, is_completed := false }

/- ui_review (lines 298-393), split into its three stages.  fresh is the
uuid4 the source generates; the expiry threshold is 86400 seconds. -/

/- Lines 313-319: reset requested, cookie missing, token unknown, or entry
older than 24 hours. -/
noncomputable def should_create_new (st : AppState) (tok : Option String)
    (reset : Bool) (now : ℝ) : Bool :=
  reset ||
    (match tok with
     | none => true
     | some t =>
       match st.mem t with
       | none => true
       | some ms => decide (now - ms.timestamp > 86400))

/- Lines 321-355: build the queue from the selector, store the new in-memory
entry under fresh, append the durable row, then sweep entries older than 24
hours. -/
noncomputable def create_session (rng : Rand) (st : AppState) (now : ℝ)
    (today : ℤ) (n : ℕ) (fresh : String) : AppState :=
  { highlights := st.highlights
    sessions := st.sessions ++ [new_row fresh now today n]
    mem := fun s =>
      match
        (if s = fresh then
          some
            { highlight_ids :=
                (get_review_highlights rng now n st.highlights).map fun h => h.id
              current_index := 0, timestamp := now }
        else st.mem s) with
      | some d => if now - d.timestamp > 86400 then none else some d
      | none => none }

/- Lines 361-382: display the current queue item. -/
noncomputable def render_current (st1 : AppState) (sid : String) :
    AppState × ReviewView :=
  match st1.mem sid with
  | some sd =>
    match sd.highlight_ids.get? sd.current_index with
    | some hid =>
      (st1, { token := sid, highlight := lookup_highlight st1.highlights hid
              current := sd.current_index + 1, total := sd.highlight_ids.length })
    | none =>
      (st1, { token := sid, highlight := none, current := 0
              total := sd.highlight_ids.length })
  | none => (st1, { token := sid, highlight := none, current := 0, total := 0 })

noncomputable def ui_review (rng : Rand) (st : AppState) (tok : Option String)
    (reset : Bool) (now : ℝ) (today : ℤ) (n : ℕ) (fresh : String) :
    AppState × ReviewView :=
  if should_create_new st tok reset now then
    render_current (create_session rng st now today n fresh) fresh
  else render_current st (tok.getD "")

/- toggle_favorite_html (lines 672-730): same guard as the JSON route, plus
the review-session favorited counter, which the source increments whenever
the requested value is true in review context. -/
def toggle_favorite_html (st : AppState) (id : Nat) (fav : Bool)
    (context : Option String) (tok : Option String) :
    AppState × Except String Unit :=
  match lookup_highlight st.highlights id with
  | none => (st, .error msg_not_found)
  | some h =>
    if fav && h.is_discarded then (st, .error msg_favorite_discarded)
    else
      let h' := { h with favorite := fav, is_favorited := fav }
      let st1 : AppState :=
        { st with highlights := update_highlight st.highlights id h' }
      match context, tok with
      | some c, some t =>
        if c = "review" ∧ fav = true then
          ({ st1 with sessions := update_row st1.sessions t fun r =>
              { r with highlights_favorited := r.highlights_favorited + 1 } },
            .ok ())
        else (st1, .ok ())
      | _, _ => (st1, .ok ())

/- discard_highlight_html (lines 733-827): toggles is_discarded, clears the
favorite flags when the new state is discarded, increments the session
discarded counter only when the new state is discarded, then advances the
review queue when called in review context with a live session. -/
def discard_highlight_html (st : AppState) (id : Nat)
    (context : Option String) (tok : Option String) (now : ℝ) :
    AppState × Except String Unit :=
  match lookup_highlight st.highlights id with
  | none => (st, .error msg_not_found)
  | some h =>
    let new_state := !h.is_discarded
    let h1 :=
      if new_state && (h.favorite || h.is_favorited) then
        { h with favorite := false, is_favorited := false }
      else h
    let h2 := { h1 with
      is_discarded := new_state
      status := if new_state then "discarded" else "active" }
    let st1 : AppState :=
      { st with highlights := update_highlight st.highlights id h2 }
    match context, tok with
    | some c, some t =>
      let st2 : AppState :=
        if c = "review" ∧ new_state = true then
          { st1 with sessions := update_row st1.sessions t fun r =>
              { r with highlights_discarded := r.highlights_discarded + 1 } }
        else st1
      if c = "review" then
        match st2.mem t with
        | some _ => ((advance_queue st2 t now).1, .ok ())
        | none => (st2, .ok ())
      else (st2, .ok ())
    | _, _ => (st1, .ok ())

/- ============ C3: the time-decay factor ============ -/

/-- C3: the selector's time-decay factor is 1 - exp(-D / 14.0); it is
strictly monotone in the elapsed days D, bounded in [0, 1) for D >= 0, and
for D = 14 with book weight 1.0 the score is exactly 1 - e^(-1), which is
within 0.001 of 0.632. -/
theorem c3_time_decay :
    (∀ d : ℝ, time_score d = 1 - Real.exp (-d / 14.0))
    ∧ StrictMono time_score
    ∧ (∀ d : ℝ, 0 ≤ d → 0 ≤ time_score d ∧ time_score d < 1)
    ∧ time_score 14 * 1 = 1 - Real.exp (-1)
    ∧ |time_score 14 - 0.632| < 0.001 := by
  have h14 : time_score 14 = 1 - Real.exp (-1) := by
    simp only [time_score, tau_days]
    norm_num
  refine ⟨?_, ?_, ?_, by rw [h14]; ring, ?_⟩
  · intro d
    simp only [time_score, tau_days]
  · intro a b hab
    have hexp : Real.exp (-b / tau_days) < Real.exp (-a / tau_days) := by
      apply Real.exp_lt_exp.2
      simp only [tau_days]
      linarith
    simp only [time_score]
    linarith
  · intro d hd
    constructor
    · have hle : Real.exp (-d / tau_days) ≤ Real.exp 0 := by
        apply Real.exp_le_exp.2
        simp only [tau_days]
        linarith
      rw [Real.exp_zero] at hle
      simp only [time_score]
      linarith
    · have hpos := Real.exp_pos (-d / tau_days)
      simp only [time_score]
      linarith
  · rw [h14, Real.exp_neg]
    have hgt := Real.exp_one_gt_d9
    have hlt := Real.exp_one_lt_d9
    have hpos : (0 : ℝ) < Real.exp 1 := Real.exp_pos 1
    have hip : (0 : ℝ) < (Real.exp 1)⁻¹ := inv_pos.2 hpos
    have hcancel : Real.exp 1 * (Real.exp 1)⁻¹ = 1 :=
      mul_inv_cancel₀ (ne_of_gt hpos)
    have h1 : (Real.exp 1)⁻¹ < 0.3678794412 := by nlinarith
    have h2 : (0.3678794411 : ℝ) < (Real.exp 1)⁻¹ := by nlinarith
    rw [abs_lt]
    constructor <;> nlinarith

theorem c3_time_decay_witness : 0 ≤ time_score 14 ∧ time_score 14 < 1 :=
  c3_time_decay.2.2.1 14 (by norm_num)

/- ============ Selector lemmas for C1 and C2 ============ -/

theorem length_filterMap_eq_countP {α β : Type} (f : α → Option β)
    (p : α → Bool) (hfp : ∀ a, (f a).isSome = p a) :
    ∀ l : List α, (l.filterMap f).length = l.countP p := by
  intro l
  induction l with
  | nil => simp
  | cons a l ih =>
    cases hfa : f a with
    | none =>
      have hp : p a = false := by rw [← hfp a, hfa]; rfl
      simp [List.filterMap_cons, hfa, List.countP_cons, hp, ih]
    | some b =>
      have hp : p a = true := by rw [← hfp a, hfa]; rfl
      simp [List.filterMap_cons, hfa, List.countP_cons, hp, ih]

theorem candidate_entry_isSome (now : ℝ) (h : Highlight) :
    (candidate_entry now h).isSome =
      decide (0 < get_book_weight h ∧ 0 < score_of now h) := by
  simp only [candidate_entry, score_of]
  by_cases hw : get_book_weight h ≤ 0
  · rw [if_pos hw]
    simp [not_lt.2 hw]
  · rw [if_neg hw]
    by_cases hs : time_score (get_days_since now h) * get_book_weight h ≤ 0
    · rw [if_pos hs]
      simp [not_lt.2 hs]
    · rw [if_neg hs]
      simp [not_le.1 hw, not_le.1 hs]

theorem candidate_entry_fst {now : ℝ} {a : Highlight} {b : Cand}
    (h : candidate_entry now a = some b) : b.1 = a := by
  simp only [candidate_entry] at h
  split at h
  · exact absurd h (by simp)
  · split at h
    · exact absurd h (by simp)
    · cases h
      rfl

theorem candidate_entry_form {now : ℝ} {a : Highlight} {b : Cand}
    (h : candidate_entry now a = some b) :
    b.2.1 = score_of now b.1 ∧ b.2.2 = b.1.book_id := by
  simp only [candidate_entry] at h
  split at h
  · exact absurd h (by simp)
  · split at h
    · exact absurd h (by simp)
    · cases h
      exact ⟨by simp [score_of], rfl⟩

theorem mem_sel_candidates_form {now : ℝ} {db : List Highlight} {c : Cand}
    (hc : c ∈ sel_candidates now db) :
    c.2.1 = score_of now c.1 ∧ c.2.2 = c.1.book_id := by
  simp only [sel_candidates, candidates, List.mem_filterMap] at hc
  obtain ⟨a, _, ha⟩ := hc
  exact candidate_entry_form ha

theorem sel_candidates_nodup {now : ℝ} {db : List Highlight}
    (hdb : db.Nodup) : (sel_candidates now db).Nodup := by
  apply List.Nodup.filterMap
  · intro a a' b hb hb'
    have h1 := candidate_entry_fst (Option.mem_def.1 hb)
    have h2 := candidate_entry_fst (Option.mem_def.1 hb')
    rw [← h1, ← h2]
  · exact hdb.filter _

theorem pick_walk_mem : ∀ (l : List Cand) (u r : ℝ) (c : Cand),
    pick_walk r u l = some c → c ∈ l := by
  intro l
  induction l with
  | nil =>
    intro u r c h
    simp [pick_walk] at h
  | cons a l ih =>
    intro u r c h
    rw [pick_walk.eq_def] at h
    simp only at h
    split at h
    · cases h
      exact List.mem_cons_self _ _
    · split at h
      · cases h
        exact List.mem_cons_self _ _
      · exact List.mem_cons_of_mem _ (ih _ _ _ h)

theorem pick_walk_isSome : ∀ (l : List Cand) (u r : ℝ), l ≠ [] →
    (pick_walk r u l).isSome := by
  intro l
  induction l with
  | nil =>
    intro u r h
    exact absurd rfl h
  | cons a l ih =>
    intro u r _
    rw [pick_walk.eq_def]
    simp only
    split
    · rfl
    · split
      · rfl
      · exact ih _ _ (by simp)

theorem weighted_pick_mem {items : List Cand} {r01 : ℝ} {fb : ℕ} {c : Cand}
    (h : weighted_pick items r01 fb = some c) : c ∈ items := by
  simp only [weighted_pick] at h
  split at h
  · exact List.get?_mem h
  · exact pick_walk_mem _ _ _ _ h

theorem weighted_pick_isSome {items : List Cand} (r01 : ℝ) (fb : ℕ)
    (hne : items ≠ []) : (weighted_pick items r01 fb).isSome := by
  simp only [weighted_pick]
  split
  · have hlen : 0 < items.length := List.length_pos.2 hne
    rw [List.get?_eq_get (Nat.mod_lt fb hlen)]
    rfl
  · exact pick_walk_isSome _ _ _ hne

/- Invariant carried through both sampling loops: the remaining pool has no
duplicates, entries keep the (h, score_of h, h.book_id) shape, selected
highlights are pairwise distinct and disjoint from the pool, and at most n
highlights have been selected. -/
def PhaseInv (now : ℝ) (n : ℕ) (st : SelState) : Prop :=
  st.remaining.Nodup ∧ st.selected.Nodup ∧
    (∀ c ∈ st.remaining, c.1 ∉ st.selected) ∧
    (∀ c ∈ st.remaining, c.2.1 = score_of now c.1 ∧ c.2.2 = c.1.book_id) ∧
    st.selected.length ≤ n

theorem PhaseInv.step {now : ℝ} {n : ℕ} {st : SelState}
    (inv : PhaseInv now n st) {pick : Cand} (hpick : pick ∈ st.remaining)
    (hlt : st.selected.length < n) (bc : Option Nat → Nat) (t' : Nat) :
    PhaseInv now n
      { selected := st.selected ++ [pick.1], book_counts := bc
        remaining := st.remaining.erase pick, t := t' } := by
  obtain ⟨hnr, hns, hdisj, hform, _⟩ := inv
  refine ⟨hnr.erase pick, ?_, ?_, ?_, ?_⟩
  · rw [List.nodup_append]
    refine ⟨hns, List.nodup_singleton _, ?_⟩
    intro a ha hb
    rw [List.mem_singleton] at hb
    subst hb
    exact hdisj pick hpick ha
  · intro c hc
    have hc' := List.mem_of_mem_erase hc
    have hne : c ≠ pick := (List.Nodup.mem_erase_iff hnr).1 hc |>.1
    rw [List.mem_append]
    rintro (hsel | hone)
    · exact hdisj c hc' hsel
    · rw [List.mem_singleton] at hone
      apply hne
      obtain ⟨hc1, hc2⟩ := hform c hc'
      obtain ⟨hp1, hp2⟩ := hform pick hpick
      have h2 : c.2 = pick.2 := by
        apply Prod.ext
        · rw [hc1, hp1, hone]
        · rw [hc2, hp2, hone]
      exact Prod.ext hone h2
  · intro c hc
    exact hform c (List.mem_of_mem_erase hc)
  · simpa using hlt

theorem cap_phase_props (rng : Rand) (n cap : ℕ) (now : ℝ) :
    ∀ (fuel : ℕ) (st : SelState), PhaseInv now n st →
      PhaseInv now n (cap_phase rng n cap fuel st) ∧
      (cap_phase rng n cap fuel st).selected.length +
          (cap_phase rng n cap fuel st).remaining.length =
        st.selected.length + st.remaining.length := by
  intro fuel
  induction fuel with
  | zero =>
    intro st h
    rw [cap_phase]
    exact ⟨h, rfl⟩
  | succ fuel ih =>
    intro st h
    rw [cap_phase]
    split
    · rename_i hlt
      split
      · exact ⟨h, rfl⟩
      · rename_i x xs hrem
        cases hwp : weighted_pick
            (st.remaining.filter fun c => decide (st.book_counts c.2.2 < cap))
            (rng.r01 st.t) (rng.choice st.t) with
        | none => exact ⟨h, rfl⟩
        | some pick =>
          have hpr : pick ∈ st.remaining :=
            List.mem_of_mem_filter (weighted_pick_mem hwp)
          have hlen := List.length_erase_of_mem hpr
          have hpos : 0 < st.remaining.length :=
            List.length_pos.2 (by rw [hrem]; simp)
          obtain ⟨ih1, ih2⟩ := ih _ (h.step hpr hlt _ _)
          refine ⟨ih1, ?_⟩
          rw [ih2]
          simp only [List.length_append, List.length_singleton, hlen]
          omega
    · exact ⟨h, rfl⟩

theorem relax_phase_props (rng : Rand) (n : ℕ) (now : ℝ) :
    ∀ (fuel : ℕ) (st : SelState), PhaseInv now n st →
      PhaseInv now n (relax_phase rng n fuel st) := by
  intro fuel
  induction fuel with
  | zero =>
    intro st h
    rw [relax_phase]
    exact h
  | succ fuel ih =>
    intro st h
    rw [relax_phase]
    split
    · rename_i hlt
      split
      · exact h
      · rename_i x xs hrem
        cases hwp : weighted_pick st.remaining (rng.r01 st.t)
            (rng.choice st.t) with
        | none => exact h
        | some pick =>
          exact ih _ (h.step (weighted_pick_mem hwp) hlt _ _)
    · exact h

theorem relax_phase_length (rng : Rand) (n : ℕ) (now : ℝ) :
    ∀ (fuel : ℕ) (st : SelState), PhaseInv now n st →
      st.remaining.length ≤ fuel →
      (relax_phase rng n fuel st).selected.length =
        min n (st.selected.length + st.remaining.length) := by
  intro fuel
  induction fuel with
  | zero =>
    intro st h hf
    have hre : st.remaining = [] := List.length_eq_zero.1 (Nat.le_zero.1 hf)
    rw [relax_phase, hre]
    simp only [List.length_nil, Nat.add_zero]
    exact (Nat.min_eq_right h.2.2.2.2).symm
  | succ fuel ih =>
    intro st h hf
    rw [relax_phase]
    split
    · rename_i hlt
      split
      · rename_i hrem
        rw [hrem]
        simp only [hrem, List.length_nil, Nat.add_zero]
        exact (Nat.min_eq_right h.2.2.2.2).symm
      · rename_i x xs hrem
        cases hwp : weighted_pick st.remaining (rng.r01 st.t)
            (rng.choice st.t) with
        | none =>
          have := @weighted_pick_isSome st.remaining (rng.r01 st.t)
            (rng.choice st.t) (by rw [hrem]; simp)
          rw [hwp] at this
          exact absurd this (by simp)
        | some pick =>
          have hpr : pick ∈ st.remaining := weighted_pick_mem hwp
          have hlen := List.length_erase_of_mem hpr
          have hpos : 0 < st.remaining.length :=
            List.length_pos.2 (by rw [hrem]; simp)
          rw [ih _ (h.step hpr hlt _ _) (by simp only [hlen]; omega)]
          simp only [List.length_append, List.length_singleton, hlen]
          congr 1
          omega
    · rename_i hge
      have hle := h.2.2.2.2
      have hsn : st.selected.length = n := by omega
      rw [hsn]
      exact (Nat.min_eq_left (by omega)).symm

theorem relax_phase_noop (rng : Rand) (n : ℕ) (fuel : ℕ) (st : SelState)
    (h : n ≤ st.selected.length ∨ st.remaining = []) :
    relax_phase rng n fuel st = st := by
  cases fuel with
  | zero => rw [relax_phase]
  | succ fuel =>
    rw [relax_phase]
    rcases h with h | h
    · rw [if_neg (by omega)]
    · split
      · rw [h]
      · rfl

theorem init_state_inv (now : ℝ) (n : ℕ) (db : List Highlight)
    (hdb : db.Nodup) : PhaseInv now n (init_state now db) := by
  refine ⟨sel_candidates_nodup hdb, List.nodup_nil, ?_, ?_, ?_⟩
  · intro c _
    simp [init_state]
  · intro c hc
    exact mem_sel_candidates_form hc
  · simp [init_state]

theorem countBook_append_single (b : Option Nat) (l : List Highlight)
    (h : Highlight) :
    countBook b (l ++ [h]) = countBook b l + if h.book_id = b then 1 else 0 := by
  by_cases hb : h.book_id = b <;>
    simp [countBook, List.countP_append, List.countP_cons, hb]

/- During the capped phase, book_counts tracks the per-book tally of the
selected list and never exceeds the cap. -/
theorem cap_phase_counts (rng : Rand) (n cap : ℕ) :
    ∀ (fuel : ℕ) (st : SelState),
      (∀ c ∈ st.remaining, c.2.2 = c.1.book_id) →
      (∀ b, st.book_counts b = countBook b st.selected) →
      (∀ b, st.book_counts b ≤ cap) →
      ∀ b, countBook b (cap_phase rng n cap fuel st).selected ≤ cap := by
  intro fuel
  induction fuel with
  | zero =>
    intro st _ heq hle b
    rw [cap_phase, ← heq b]
    exact hle b
  | succ fuel ih =>
    intro st hform heq hle
    rw [cap_phase]
    split
    · rename_i hlt
      split
      · intro b
        rw [← heq b]
        exact hle b
      · rename_i x xs hrem
        cases hwp : weighted_pick
            (st.remaining.filter fun c => decide (st.book_counts c.2.2 < cap))
            (rng.r01 st.t) (rng.choice st.t) with
        | none =>
          intro b
          rw [← heq b]
          exact hle b
        | some pick =>
          have hpe := weighted_pick_mem hwp
          have hpr : pick ∈ st.remaining := List.mem_of_mem_filter hpe
          have hplt : st.book_counts pick.2.2 < cap := by
            have := (List.mem_filter.1 hpe).2
            simpa using this
          have hbid : pick.2.2 = pick.1.book_id := hform pick hpr
          apply ih
          · intro c hc
            exact hform c (List.mem_of_mem_erase hc)
          · intro b
            dsimp only
            rw [countBook_append_single, ← heq b]
            by_cases hb : b = pick.2.2
            · rw [if_pos hb, if_pos (by rw [← hbid, hb])]
            · rw [if_neg hb, if_neg (by rw [← hbid]; exact fun hx => hb hx.symm)]
              omega
          · intro b
            dsimp only
            by_cases hb : b = pick.2.2
            · rw [if_pos hb]
              subst hb
              omega
            · rw [if_neg hb]
              exact hle b
    · intro b
      rw [← heq b]
      exact hle b

/- ============ C1 and C2 ============ -/

/-- C1: with N >= 1 and distinct stored highlights, get_review_highlights
returns exactly min(N, k) highlights with no duplicates, where k is the
number of candidates with positive score (score = timeScore times the
resolved book weight, weight <= 0 candidates skipped); in particular when
every book weight is 0.0 the result is empty. -/
theorem c1_selection_count (rng : Rand) (now : ℝ) (n : ℕ)
    (db : List Highlight) (hn : 1 ≤ n) (hdb : db.Nodup) :
    (get_review_highlights rng now n db).length
        = min n (sel_candidates now db).length
    ∧ (get_review_highlights rng now n db).Nodup
    ∧ (sel_candidates now db).length
        = (eligible_highlights db).countP
            (fun h => decide (0 < get_book_weight h ∧ 0 < score_of now h))
    ∧ ((∀ h ∈ db, ∃ b, h.book = some b ∧ b.review_weight = some 0) →
        get_review_highlights rng now n db = []) := by
  have hcount := length_filterMap_eq_countP (candidate_entry now)
    (fun h => decide (0 < get_book_weight h ∧ 0 < score_of now h))
    (candidate_entry_isSome now) (eligible_highlights db)
  have inv0 := init_state_inv now n db hdb
  obtain ⟨inv1, cons1⟩ :=
    cap_phase_props rng n (max_per_book n) now (sel_candidates now db).length
      (init_state now db) inv0
  have hlen := relax_phase_length rng n now _ _ inv1 (le_refl _)
  have inv2 := relax_phase_props rng n now
    (cap_phase rng n (max_per_book n) (sel_candidates now db).length
      (init_state now db)).remaining.length _ inv1
  refine ⟨?_, ?_, hcount, ?_⟩
  · rw [get_review_highlights]
    by_cases he : (eligible_highlights db).isEmpty = true
    · rw [if_pos he]
      have hnil : sel_candidates now db = [] := by
        rw [List.isEmpty_iff] at he
        simp [sel_candidates, candidates, he]
      rw [hnil]
      simp
    · rw [if_neg he]
      by_cases hc : (sel_candidates now db).isEmpty = true
      · rw [if_pos hc]
        rw [List.isEmpty_iff] at hc
        rw [hc]
        simp
      · rw [if_neg hc]
        unfold final_state cap_state
        rw [hlen, cons1]
        simp [init_state]
  · rw [get_review_highlights]
    by_cases he : (eligible_highlights db).isEmpty = true
    · rw [if_pos he]
      exact List.nodup_nil
    · rw [if_neg he]
      by_cases hc : (sel_candidates now db).isEmpty = true
      · rw [if_pos hc]
        exact List.nodup_nil
      · rw [if_neg hc]
        unfold final_state cap_state
        exact inv2.2.1
  · intro hzero
    have hnil : sel_candidates now db = [] := by
      rw [sel_candidates, candidates, List.filterMap_eq_nil]
      intro h hmem
      obtain ⟨b, hb, hw⟩ := hzero h (List.mem_of_mem_filter hmem)
      have hwz : get_book_weight h = 0 := by
        simp [get_book_weight, hb, hw]
      rw [candidate_entry, if_pos (le_of_eq hwz)]
    rw [get_review_highlights]
    by_cases he : (eligible_highlights db).isEmpty = true
    · rw [if_pos he]
    · rw [if_neg he, if_pos (by rw [hnil]; rfl)]

/-- C2: no book contributes more than 2 highlights to a selection with
N >= 4 unless the relaxation phase was entered because no cap-eligible
candidates remained before N items were chosen; for N < 4 the per-book cap
of the capped sampling phase is 1. -/
theorem c2_diversity_cap (rng : Rand) (now : ℝ) (n : ℕ)
    (db : List Highlight) :
    (4 ≤ n → ¬ relax_entered rng now n db →
      ∀ b, countBook b (get_review_highlights rng now n db) ≤ 2)
    ∧ (n < 4 → ∀ b, countBook b (cap_state rng now n db).selected ≤ 1) := by
  have hcap : ∀ b,
      countBook b (cap_state rng now n db).selected ≤ max_per_book n := by
    apply cap_phase_counts
    · intro c hc
      exact (mem_sel_candidates_form (by simpa [init_state] using hc)).2
    · intro b
      simp [init_state, countBook]
    · intro b
      simp [init_state]
  constructor
  · intro h4 hnr b
    have hnoop : final_state rng now n db = cap_state rng now n db := by
      rw [final_state]
      apply relax_phase_noop
      rcases not_and_or.1 hnr with h | h
      · exact Or.inl (by omega)
      · exact Or.inr (not_ne_iff.1 h)
    rw [get_review_highlights]
    by_cases he : (eligible_highlights db).isEmpty = true
    · rw [if_pos he]
      simp [countBook]
    · rw [if_neg he]
      by_cases hc : (sel_candidates now db).isEmpty = true
      · rw [if_pos hc]
        simp [countBook]
      · rw [if_neg hc, hnoop]
        have := hcap b
        rwa [max_per_book, if_pos h4] at this
  · intro hlt b
    have := hcap b
    rwa [max_per_book, if_neg (by omega)] at this

/- Concrete inputs for the witnesses. -/

noncomputable def rng0 : Rand := { r01 := fun _ => 0, choice := fun _ => 0 }

def book0 : Book := { review_weight := some 0 }

def h0 : Highlight :=
  { id := 1, book_id := some 1, book := some book0, created_at := none
    last_reviewed_at := none, status := "active", favorite := false
    is_favorited := false, is_discarded := false, review_count := 0 }

theorem c1_selection_count_witness :
    (get_review_highlights rng0 0 1 [h0]).length
        = min 1 (sel_candidates 0 [h0]).length
    ∧ (get_review_highlights rng0 0 1 [h0]).Nodup
    ∧ (sel_candidates 0 [h0]).length
        = (eligible_highlights [h0]).countP
            (fun h => decide (0 < get_book_weight h ∧ 0 < score_of 0 h))
    ∧ ((∀ h ∈ [h0], ∃ b, h.book = some b ∧ b.review_weight = some 0) →
        get_review_highlights rng0 0 1 [h0] = []) :=
  c1_selection_count rng0 0 1 [h0] (by norm_num) (by simp)

theorem c2_diversity_cap_witness :
    countBook none (get_review_highlights rng0 0 4 []) ≤ 2 :=
  (c2_diversity_cap rng0 0 4 []).1 (by norm_num)
    (by
      simp only [relax_entered, cap_state, init_state, sel_candidates,
        candidates, eligible_highlights, List.filter_nil, List.filterMap_nil,
        List.length_nil, cap_phase]
      simp)
    none

/- ============ Session-layer helper lemmas ============ -/

theorem find_row_update (rows : List ReviewSession) (t : String)
    (f : ReviewSession → ReviewSession)
    (hf : ∀ r, (f r).session_uuid = r.session_uuid) :
    find_row (update_row rows t f) t = (find_row rows t).map f := by
  induction rows with
  | nil => rfl
  | cons r rs ih =>
    simp only [update_row, find_row, List.map_cons] at *
    by_cases hr : r.session_uuid = t
    · rw [if_pos hr]
      rw [List.find?_cons_of_pos _ (by simp [hf r, hr]),
        List.find?_cons_of_pos _ (by simp [hr])]
      rfl
    · rw [if_neg hr]
      rw [List.find?_cons_of_neg _ (by simp [hr]),
        List.find?_cons_of_neg _ (by simp [hr])]
      exact ih

theorem update_row_map_eq {α : Type} (rows : List ReviewSession) (t : String)
    (f : ReviewSession → ReviewSession) (g : ReviewSession → α)
    (hg : ∀ r, g (f r) = g r) :
    (update_row rows t f).map g = rows.map g := by
  rw [update_row, List.map_map]
  apply List.map_congr_left
  intro r _
  by_cases hr : r.session_uuid = t <;> simp [hr, hg]

theorem lookup_update_self (hs : List Highlight) (id : Nat) (h' : Highlight)
    (hid : h'.id = id) (hex : (lookup_highlight hs id).isSome = true) :
    lookup_highlight (update_highlight hs id h') id = some h' := by
  induction hs with
  | nil => simp [lookup_highlight] at hex
  | cons y ys ih =>
    by_cases hy : y.id = id
    · simp only [update_highlight, List.map_cons, if_pos hy, lookup_highlight]
      rw [List.find?_cons_of_pos _ (by simp [hid])]
    · simp only [update_highlight, List.map_cons, if_neg hy,
        lookup_highlight] at *
      rw [List.find?_cons_of_neg _ (by simp [hy])]
      rw [List.find?_cons_of_neg _ (by simp [hy])] at hex
      exact ih hex

/- Invariant: a discarded highlight carries no favorite flag. -/
def HOk (h : Highlight) : Prop :=
  h.is_discarded = true → h.favorite = false ∧ h.is_favorited = false

def DBOk (hs : List Highlight) : Prop := ∀ h ∈ hs, HOk h

theorem DBOk_update {hs : List Highlight} (id : Nat) {h' : Highlight}
    (hok : HOk h') (hdb : DBOk hs) : DBOk (update_highlight hs id h') := by
  intro x hx
  obtain ⟨y, hy, hxy⟩ := List.mem_map.1 hx
  by_cases hid : y.id = id
  · rw [if_pos hid] at hxy
    subst hxy
    exact hok
  · rw [if_neg hid] at hxy
    subst hxy
    exact hdb y hy

theorem find_row_update_ne (rows : List ReviewSession) (t t' : String)
    (f : ReviewSession → ReviewSession)
    (hf : ∀ r, (f r).session_uuid = r.session_uuid) (hne : t' ≠ t) :
    find_row (update_row rows t f) t' = find_row rows t' := by
  induction rows with
  | nil => rfl
  | cons r rs ih =>
    simp only [update_row, find_row, List.map_cons] at *
    by_cases hrt : r.session_uuid = t
    · rw [if_pos hrt]
      by_cases hr' : r.session_uuid = t'
      · exact absurd (hr'.symm.trans hrt) hne
      · rw [List.find?_cons_of_neg _ (by rw [hf r]; simp [hr']),
          List.find?_cons_of_neg _ (by simp [hr'])]
        exact ih
    · rw [if_neg hrt]
      by_cases hr' : r.session_uuid = t'
      · rw [List.find?_cons_of_pos _ (by simp [hr']),
          List.find?_cons_of_pos _ (by simp [hr'])]
      · rw [List.find?_cons_of_neg _ (by simp [hr']),
          List.find?_cons_of_neg _ (by simp [hr'])]
        exact ih

theorem advance_queue_highlights (st : AppState) (t : String) (now : ℝ) :
    (advance_queue st t now).1.highlights = st.highlights := by
  rw [advance_queue]
  split
  · rfl
  · dsimp only
    split
    · rfl
    · split
      · rfl
      · split <;> rfl

theorem advance_queue_sessions_map {α : Type} (st : AppState) (t : String)
    (now : ℝ) (g : ReviewSession → α)
    (hg : ∀ r, g { r with completed_at := some now, is_completed := true } = g r) :
    (advance_queue st t now).1.sessions.map g = st.sessions.map g := by
  rw [advance_queue]
  split
  · rfl
  · dsimp only
    split
    · exact update_row_map_eq _ _ _ _ hg
    · split
      · rfl
      · split <;> rfl

theorem advance_queue_find_row_map {α : Type} (st : AppState) (t' t : String)
    (now : ℝ) (g : ReviewSession → α)
    (hg : ∀ r, g { r with completed_at := some now, is_completed := true } = g r) :
    ((find_row (advance_queue st t now).1.sessions t').map g)
      = (find_row st.sessions t').map g := by
  rw [advance_queue]
  split
  · rfl
  · dsimp only
    split
    · dsimp only
      by_cases htt : t' = t
      · subst htt
        rw [find_row_update st.sessions t'
          (fun r => { r with completed_at := some now, is_completed := true })
          (fun r => rfl)]
        cases find_row st.sessions t' with
        | none => rfl
        | some r => simp [hg r]
      · rw [find_row_update_ne st.sessions t t'
          (fun r => { r with completed_at := some now, is_completed := true })
          (fun r => rfl) htt]
    · split
      · rfl
      · split <;> rfl

theorem ui_review_highlights (rng : Rand) (st : AppState) (tok : Option String)
    (reset : Bool) (now : ℝ) (today : ℤ) (n : ℕ) (fresh : String) :
    (ui_review rng st tok reset now today n fresh).1.highlights
      = st.highlights := by
  have hrc : ∀ (st1 : AppState) (sid : String),
      (render_current st1 sid).1.highlights = st1.highlights := by
    intro st1 sid
    rw [render_current]
    split
    · split <;> rfl
    · rfl
  rw [ui_review]
  split
  · rw [hrc]
    rfl
  · rw [hrc]

theorem ui_review_next_highlights (st : AppState) (cid : Nat)
    (tok : Option String) (now : ℝ) :
    (ui_review_next st cid tok now).1.highlights
      = match lookup_highlight st.highlights cid with
        | some h =>
          update_highlight st.highlights cid
            { h with last_reviewed_at := some now
                     review_count := h.review_count + 1 }
        | none => st.highlights := by
  rw [ui_review_next.eq_def]
  cases tok with
  | none => rfl
  | some t =>
    dsimp only
    cases hl : lookup_highlight st.highlights cid <;> dsimp only <;>
      split <;> first
        | rfl
        | (rw [advance_queue_highlights])

theorem discard_highlight_html_highlights (st : AppState) (id : Nat)
    (ctx tok : Option String) (now : ℝ) :
    (discard_highlight_html st id ctx tok now).1.highlights
      = match lookup_highlight st.highlights id with
        | none => st.highlights
        | some h =>
          update_highlight st.highlights id
            { (if !h.is_discarded && (h.favorite || h.is_favorited) then
                { h with favorite := false, is_favorited := false }
              else h) with
              is_discarded := !h.is_discarded
              status := if !h.is_discarded then "discarded" else "active" } := by
  rw [discard_highlight_html]
  cases hl : lookup_highlight st.highlights id with
  | none => rfl
  | some h =>
    dsimp only
    split
    · split
      · split
        · rw [advance_queue_highlights]
          split <;> rfl
        · split <;> rfl
      · split <;> rfl
    · rfl

/- ============ C5 and C6 ============ -/

/-- C5: no core operation ever leaves a highlight both discarded and
favorited: discarding clears both favorite flags, favoriting a discarded
highlight is rejected, every operation preserves the invariant on the
stored highlights, and a discarded highlight is never in the eligible set
the selector draws from. -/
theorem c5_discard_favorite_invariant :
    (∀ hs id fav, DBOk hs → DBOk (toggle_favorite hs id fav).1)
    ∧ (∀ hs id, DBOk hs → DBOk (discard_highlight hs id).1)
    ∧ (∀ hs id h2, (discard_highlight hs id).2 = Except.ok h2 →
        h2.is_discarded = true ∧ h2.favorite = false ∧ h2.is_favorited = false)
    ∧ (∀ hs id h, lookup_highlight hs id = some h → h.is_discarded = true →
        toggle_favorite hs id true
          = (hs, Except.error msg_favorite_discarded))
    ∧ (∀ st id fav ctx tok, DBOk st.highlights →
        DBOk (toggle_favorite_html st id fav ctx tok).1.highlights)
    ∧ (∀ st id ctx tok now, DBOk st.highlights →
        DBOk (discard_highlight_html st id ctx tok now).1.highlights)
    ∧ (∀ st cid tok now, DBOk st.highlights →
        DBOk (ui_review_next st cid tok now).1.highlights)
    ∧ (∀ rng st tok reset now today n fresh, DBOk st.highlights →
        DBOk (ui_review rng st tok reset now today n fresh).1.highlights)
    ∧ (∀ hs h, h ∈ eligible_highlights hs → h.is_discarded = false) := by
  have hok_fav : ∀ (h : Highlight) (fav : Bool),
      ¬(fav && h.is_discarded) = true →
      HOk { h with favorite := fav, is_favorited := fav } := by
    intro h fav hguard hdisc
    dsimp only at hdisc
    have hfav : fav = false := by
      cases fav
      · rfl
      · exact absurd (by simp [hdisc]) hguard
    exact ⟨by simp [hfav], by simp [hfav]⟩
  have hok_disc : ∀ h : Highlight,
      HOk { (if h.favorite || h.is_favorited then
              { h with favorite := false, is_favorited := false }
            else h) with
            status := "discarded", is_discarded := true } := by
    intro h _
    by_cases hf : (h.favorite || h.is_favorited) = true
    · rw [if_pos hf]
      exact ⟨rfl, rfl⟩
    · rw [if_neg hf]
      simp only [Bool.or_eq_true, not_or, Bool.not_eq_true] at hf
      exact ⟨hf.1, hf.2⟩
  refine ⟨?_, ?_, ?_, ?_, ?_, ?_, ?_, ?_, ?_⟩
  · intro hs id fav hdb
    rw [toggle_favorite]
    cases hl : lookup_highlight hs id with
    | none => exact hdb
    | some h =>
      dsimp only
      by_cases hguard : (fav && h.is_discarded) = true
      · rw [if_pos hguard]
        exact hdb
      · rw [if_neg hguard]
        exact DBOk_update id (hok_fav h fav hguard) hdb
  · intro hs id hdb
    rw [discard_highlight]
    cases hl : lookup_highlight hs id with
    | none => exact hdb
    | some h =>
      exact DBOk_update id (hok_disc h) hdb
  · intro hs id h2 hok
    rw [discard_highlight] at hok
    cases hl : lookup_highlight hs id with
    | none =>
      rw [hl] at hok
      exact absurd hok (by simp)
    | some h =>
      rw [hl] at hok
      dsimp only at hok
      cases hok
      refine ⟨rfl, ?_, ?_⟩ <;>
        · by_cases hf : (h.favorite || h.is_favorited) = true
          · simp only [if_pos hf]
          · simp only [if_neg hf]
            simp only [Bool.or_eq_true, not_or, Bool.not_eq_true] at hf
            first
              | exact hf.1
              | exact hf.2
  · intro hs id h hl hd
    rw [toggle_favorite, hl]
    dsimp only
    rw [if_pos (by simp [hd])]
  · intro st id fav ctx tok hdb
    rw [toggle_favorite_html]
    cases hl : lookup_highlight st.highlights id with
    | none => exact hdb
    | some h =>
      dsimp only
      by_cases hguard : (fav && h.is_discarded) = true
      · rw [if_pos hguard]
        exact hdb
      · rw [if_neg hguard]
        have hup := DBOk_update id (hok_fav h fav hguard) hdb
        split
        · split
          · exact hup
          · exact hup
        · exact hup
  · intro st id ctx tok now hdb
    rw [discard_highlight_html_highlights]
    cases hl : lookup_highlight st.highlights id with
    | none => exact hdb
    | some h =>
      dsimp only
      apply DBOk_update id ?_ hdb
      intro hdisc
      dsimp only at hdisc
      by_cases hf : (!h.is_discarded && (h.favorite || h.is_favorited)) = true
      · rw [if_pos hf]
        exact ⟨rfl, rfl⟩
      · rw [if_neg hf]
        have hnd : h.is_discarded = false := by
          cases hcd : h.is_discarded
          · rfl
          · rw [hcd] at hdisc
            simp at hdisc
        rw [hnd] at hf
        simp only [Bool.not_false, Bool.true_and, Bool.or_eq_true, not_or,
          Bool.not_eq_true] at hf
        exact ⟨hf.1, hf.2⟩
  · intro st cid tok now hdb
    rw [ui_review_next_highlights]
    cases hl : lookup_highlight st.highlights cid with
    | none => exact hdb
    | some h =>
      dsimp only
      apply DBOk_update cid ?_ hdb
      intro hdisc
      dsimp only at hdisc
      exact hdb h (List.mem_of_find?_eq_some hl) hdisc
  · intro rng st tok reset now today n fresh hdb
    rw [ui_review_highlights]
    exact hdb
  · intro hs h hmem
    have hp := (List.mem_filter.1 hmem).2
    simp only [Bool.and_eq_true, beq_iff_eq] at hp
    exact hp.2

def c5w : Highlight :=
  { id := 7, book_id := none, book := none, created_at := none
    last_reviewed_at := none, status := "active", favorite := false
    is_favorited := false, is_discarded := false, review_count := 0 }

theorem c5_discard_favorite_invariant_witness : c5w.is_discarded = false :=
  c5_discard_favorite_invariant.2.2.2.2.2.2.2.2 [c5w] c5w
    (by simp [eligible_highlights, c5w])

/-- C6: a request to set favorite = true on a discarded highlight is
rejected as an invalid operation by both the JSON and the HTML route, and
the rejected call returns the program state unchanged. -/
theorem c6_favorite_discarded_rejected (st : AppState) (id : Nat)
    (h : Highlight) (ctx tok : Option String)
    (hl : lookup_highlight st.highlights id = some h)
    (hd : h.is_discarded = true) :
    toggle_favorite st.highlights id true
        = (st.highlights, Except.error msg_favorite_discarded)
    ∧ toggle_favorite_html st id true ctx tok
        = (st, Except.error msg_favorite_discarded) := by
  constructor
  · rw [toggle_favorite, hl]
    dsimp only
    rw [if_pos (by simp [hd])]
  · rw [toggle_favorite_html, hl]
    dsimp only
    rw [if_pos (by simp [hd])]

def c6h : Highlight :=
  { id := 3, book_id := none, book := none, created_at := none
    last_reviewed_at := none, status := "discarded", favorite := false
    is_favorited := false, is_discarded := true, review_count := 2 }

def c6st : AppState :=
  { highlights := [c6h], sessions := [], mem := fun _ => none }

theorem c6_favorite_discarded_rejected_witness :
    toggle_favorite c6st.highlights 3 true
        = (c6st.highlights, Except.error msg_favorite_discarded)
    ∧ toggle_favorite_html c6st 3 true none none
        = (c6st, Except.error msg_favorite_discarded) :=
  c6_favorite_discarded_rejected c6st 3 c6h none none (by rfl) (by rfl)

/- ============ C7 ============ -/

def c7tok : String := "s7"

def c7h : Highlight :=
  { id := 1, book_id := none, book := none, created_at := none
    last_reviewed_at := none, status := "discarded", favorite := false
    is_favorited := false, is_discarded := true, review_count := 0 }

def c7row : ReviewSession :=
  { user_id := 1, session_uuid := c7tok, started_at := 0, completed_at := none
    session_date := 0, target_count := 5, highlights_reviewed := 0
    highlights_discarded := 0, highlights_favorited := 0, is_completed := false }

def c7st : AppState :=
  { highlights := [c7h], sessions := [c7row], mem := fun _ => none }

/-- C7 counterexample: the HTML discard endpoint toggles is_discarded, so an
advance with action=discarded on an already-discarded highlight leaves the
flag false (it restores the highlight) and does not increment the session
highlights_discarded counter, contradicting the claim as stated. -/
theorem c7_counterexample :
    c7h.is_discarded = true
    ∧ ((discard_highlight_html c7st 1 (some ctx_review) (some c7tok) 0).1.highlights.map
        fun h => h.is_discarded) = [false]
    ∧ ((discard_highlight_html c7st 1 (some ctx_review) (some c7tok) 0).1.sessions.map
        fun r => r.highlights_discarded) = [0] :=
  ⟨rfl, rfl, rfl⟩

/-- C7 (amended): for an advance with action=discarded on a highlight that is
not currently discarded, and for the direct JSON discard on any highlight,
the highlight ends discarded with both favorite flags cleared, and the
review advance increments the session highlights_discarded counter by one;
on an already-discarded highlight the HTML endpoint toggles it back instead. -/
theorem c7_discard_effects :
    (∀ hs id h, lookup_highlight hs id = some h →
        (discard_highlight hs id).2.map
            (fun x => (x.is_discarded, x.favorite, x.is_favorited))
          = Except.ok (true, false, false))
    ∧ (∀ st id h t r now,
        lookup_highlight st.highlights id = some h →
        h.is_discarded = false →
        find_row st.sessions t = some r →
        ((lookup_highlight
            (discard_highlight_html st id (some ctx_review) (some t) now).1.highlights
            id).map fun x => (x.is_discarded, x.favorite, x.is_favorited))
          = some (true, false, false)
        ∧ ((find_row
            (discard_highlight_html st id (some ctx_review) (some t) now).1.sessions
            t).map fun x => x.highlights_discarded)
          = some (r.highlights_discarded + 1)) := by
  constructor
  · intro hs id h hl
    rw [discard_highlight, hl]
    dsimp only [Except.map]
    by_cases hf : (h.favorite || h.is_favorited) = true
    · rw [if_pos hf]
    · rw [if_neg hf]
      simp only [Bool.or_eq_true, not_or, Bool.not_eq_true] at hf
      rw [hf.1, hf.2]
  · intro st id h t r now hl hnd hr
    have hid : h.id = id := by
      have := List.find?_some hl
      simpa using this
    constructor
    · rw [discard_highlight_html_highlights, hl]
      dsimp only
      rw [lookup_update_self _ _ _ ?_ (by rw [hl]; rfl)]
      · dsimp only [Option.map]
        rw [hnd]
        simp only [Bool.not_false, Bool.true_and]
        by_cases hf : (h.favorite || h.is_favorited) = true
        · rw [if_pos hf]
        · rw [if_neg hf]
          simp only [Bool.or_eq_true, not_or, Bool.not_eq_true] at hf
          rw [hf.1, hf.2]
      · dsimp only
        by_cases hf : (!h.is_discarded && (h.favorite || h.is_favorited)) = true
        · rw [if_pos hf]
          exact hid
        · rw [if_neg hf]
          exact hid
    · rw [discard_highlight_html, hl]
      dsimp only
      rw [if_pos (show ctx_review = "review" ∧ (!h.is_discarded) = true from
        ⟨rfl, by simp [hnd]⟩)]
      rw [if_pos (show ctx_review = "review" from rfl)]
      dsimp only
      cases hm : st.mem t with
      | none =>
        dsimp only
        rw [find_row_update st.sessions t
          (fun x => { x with highlights_discarded := x.highlights_discarded + 1 })
          (fun x => rfl), hr]
        rfl
      | some ms =>
        dsimp only
        rw [advance_queue_find_row_map _ t t now
          (fun x => x.highlights_discarded) (fun x => rfl)]
        dsimp only
        rw [find_row_update st.sessions t
          (fun x => { x with highlights_discarded := x.highlights_discarded + 1 })
          (fun x => rfl), hr]
        rfl

def c7wtok : String := "w7"

def c7wh : Highlight :=
  { id := 2, book_id := none, book := none, created_at := none
    last_reviewed_at := none, status := "active", favorite := true
    is_favorited := true, is_discarded := false, review_count := 0 }

def c7wrow : ReviewSession :=
  { user_id := 1, session_uuid := c7wtok, started_at := 0, completed_at := none
    session_date := 0, target_count := 5, highlights_reviewed := 0
    highlights_discarded := 0, highlights_favorited := 0, is_completed := false }

def c7wst : AppState :=
  { highlights := [c7wh], sessions := [c7wrow], mem := fun _ => none }

theorem c7_discard_effects_witness :
    ((lookup_highlight
        (discard_highlight_html c7wst 2 (some ctx_review) (some c7wtok) 0).1.highlights
        2).map fun x => (x.is_discarded, x.favorite, x.is_favorited))
      = some (true, false, false)
    ∧ ((find_row
        (discard_highlight_html c7wst 2 (some ctx_review) (some c7wtok) 0).1.sessions
        c7wtok).map fun x => x.highlights_discarded)
      = some (c7wrow.highlights_discarded + 1) :=
  c7_discard_effects.2 c7wst 2 c7wh c7wtok c7wrow 0 (by rfl) (by rfl) (by rfl)

/- ============ C8 ============ -/

def c8tok : String := "s8"

def c8h : Highlight :=
  { id := 1, book_id := none, book := none, created_at := none
    last_reviewed_at := none, status := "active", favorite := true
    is_favorited := true, is_discarded := false, review_count := 0 }

def c8row : ReviewSession :=
  { user_id := 1, session_uuid := c8tok, started_at := 0, completed_at := none
    session_date := 0, target_count := 5, highlights_reviewed := 0
    highlights_discarded := 0, highlights_favorited := 0, is_completed := false }

def c8st : AppState :=
  { highlights := [c8h], sessions := [c8row], mem := fun _ => none }

/-- C8 counterexample: the highlight is already favorited before the call,
yet a favorite call with favorite=true in review context still increments
the session highlights_favorited counter from 0 to 1, contradicting the
claim that the counter is incremented only when the state is newly
favorited. -/
theorem c8_counterexample :
    c8h.is_favorited = true ∧ c8h.favorite = true
    ∧ ((toggle_favorite_html c8st 1 true (some ctx_review) (some c8tok)).1.sessions.map
        fun r => r.highlights_favorited) = [1] :=
  ⟨rfl, rfl, rfl⟩

/-- C8 (amended): in review context with a session token whose durable row
exists, the highlights_favorited counter is incremented whenever the
requested favorite value is true — regardless of whether the highlight was
already favorited — and never when the requested value is false. -/
theorem c8_favorited_counter (st : AppState) (id : Nat) (h : Highlight)
    (t : String) (r : ReviewSession)
    (hl : lookup_highlight st.highlights id = some h)
    (hnd : h.is_discarded = false)
    (hr : find_row st.sessions t = some r) :
    ((find_row
        (toggle_favorite_html st id true (some ctx_review) (some t)).1.sessions
        t).map fun x => x.highlights_favorited)
      = some (r.highlights_favorited + 1)
    ∧ (toggle_favorite_html st id false (some ctx_review) (some t)).1.sessions
      = st.sessions := by
  constructor
  · rw [toggle_favorite_html, hl]
    dsimp only
    rw [if_neg (by rw [hnd]; simp)]
    rw [if_pos (show ctx_review = "review" ∧ true = true from ⟨rfl, rfl⟩)]
    dsimp only
    rw [find_row_update st.sessions t
      (fun x => { x with highlights_favorited := x.highlights_favorited + 1 })
      (fun x => rfl), hr]
    rfl
  · rw [toggle_favorite_html, hl]
    dsimp only
    rw [if_neg (by simp)]
    rw [if_neg (show ¬(ctx_review = "review" ∧ false = true) by simp)]

theorem c8_favorited_counter_witness :
    ((find_row
        (toggle_favorite_html c8st 1 true (some ctx_review) (some c8tok)).1.sessions
        c8tok).map fun x => x.highlights_favorited)
      = some (c8row.highlights_favorited + 1)
    ∧ (toggle_favorite_html c8st 1 false (some ctx_review) (some c8tok)).1.sessions
      = c8st.sessions :=
  c8_favorited_counter c8st 1 c8h c8tok c8row (by rfl) (by rfl) (by rfl)

/- ============ Advance-step characterizations (for C4 and C10) ============ -/

theorem advance_queue_mid (st : AppState) (t : String) (now : ℝ)
    (ids : List Nat) (i : Nat) (ts : ℝ)
    (hmem : st.mem t
      = some { highlight_ids := ids, current_index := i, timestamp := ts })
    (hlt : i + 1 < ids.length) :
    (advance_queue st t now).1
        = { st with mem := fun s =>
              if s = t then
                some { highlight_ids := ids, current_index := i + 1
                       timestamp := ts }
              else st.mem s }
    ∧ (advance_queue st t now).2 ≠ NextView.completedView := by
  rw [advance_queue, hmem]
  dsimp only
  rw [if_neg (by omega)]
  constructor
  · split
    · rfl
    · split <;> rfl
  · split
    · exact fun hcon => by cases hcon
    · split <;> exact fun hcon => by cases hcon

theorem advance_queue_end (st : AppState) (t : String) (now : ℝ)
    (ids : List Nat) (i : Nat) (ts : ℝ)
    (hmem : st.mem t
      = some { highlight_ids := ids, current_index := i, timestamp := ts })
    (hend : ids.length ≤ i + 1) :
    (advance_queue st t now).1
        = { st with
            sessions := update_row st.sessions t fun r =>
              { r with completed_at := some now, is_completed := true }
            mem := fun s => if s = t then none else st.mem s }
    ∧ (advance_queue st t now).2 = NextView.completedView := by
  rw [advance_queue, hmem]
  dsimp only
  rw [if_pos (by omega)]
  exact ⟨rfl, rfl⟩

theorem ui_review_next_mid (st : AppState) (cid : Nat) (t : String) (now : ℝ)
    (ids : List Nat) (i : Nat) (ts : ℝ)
    (hmem : st.mem t
      = some { highlight_ids := ids, current_index := i, timestamp := ts })
    (hlt : i + 1 < ids.length) :
    (ui_review_next st cid (some t) now).1.mem t
        = some { highlight_ids := ids, current_index := i + 1, timestamp := ts }
    ∧ (ui_review_next st cid (some t) now).1.sessions
        = update_row st.sessions t
            (fun r => { r with highlights_reviewed := r.highlights_reviewed + 1 })
    ∧ (ui_review_next st cid (some t) now).2 ≠ NextView.completedView := by
  rw [ui_review_next.eq_def]
  dsimp only
  rw [hmem]
  dsimp only
  obtain ⟨h1, h2⟩ := advance_queue_mid
    { st with
      highlights :=
        (match lookup_highlight st.highlights cid with
        | some h =>
          update_highlight st.highlights cid
            { h with last_reviewed_at := some now
                     review_count := h.review_count + 1 }
        | none => st.highlights)
      sessions := update_row st.sessions t
        (fun r => { r with highlights_reviewed := r.highlights_reviewed + 1 }) }
    t now ids i ts hmem hlt
  rw [h1]
  refine ⟨by simp, rfl, h2⟩

theorem ui_review_next_end (st : AppState) (cid : Nat) (t : String) (now : ℝ)
    (ids : List Nat) (i : Nat) (ts : ℝ)
    (hmem : st.mem t
      = some { highlight_ids := ids, current_index := i, timestamp := ts })
    (hend : ids.length ≤ i + 1) :
    (ui_review_next st cid (some t) now).1.mem t = none
    ∧ (ui_review_next st cid (some t) now).1.sessions
        = update_row
            (update_row st.sessions t
              (fun r => { r with highlights_reviewed := r.highlights_reviewed + 1 }))
            t (fun r => { r with completed_at := some now, is_completed := true })
    ∧ (ui_review_next st cid (some t) now).2 = NextView.completedView := by
  rw [ui_review_next.eq_def]
  dsimp only
  rw [hmem]
  dsimp only
  obtain ⟨h1, h2⟩ := advance_queue_end
    { st with
      highlights :=
        (match lookup_highlight st.highlights cid with
        | some h =>
          update_highlight st.highlights cid
            { h with last_reviewed_at := some now
                     review_count := h.review_count + 1 }
        | none => st.highlights)
      sessions := update_row st.sessions t
        (fun r => { r with highlights_reviewed := r.highlights_reviewed + 1 }) }
    t now ids i ts hmem hend
  rw [h1]
  refine ⟨by simp, rfl, h2⟩

/- ============ C10 ============ -/

def c10tok : String := "sa"

def c10h : Highlight :=
  { id := 1, book_id := none, book := none, created_at := none
    last_reviewed_at := none, status := "active", favorite := false
    is_favorited := false, is_discarded := false, review_count := 0 }

def c10row : ReviewSession :=
  { user_id := 1, session_uuid := c10tok, started_at := 0, completed_at := none
    session_date := 0, target_count := 5, highlights_reviewed := 0
    highlights_discarded := 0, highlights_favorited := 0, is_completed := false }

def c10st : AppState :=
  { highlights := [c10h], sessions := [c10row], mem := fun _ => none }

/-- C10 counterexample: with the in-memory queue entry for the token absent
(the store is empty, as after a process restart), an advance with
action=reviewed still updates durable state — the named highlight's
review_count rises from 0 to 1 and the durable row's highlights_reviewed
rises from 0 to 1 — contradicting the claim that durable state is not
modified. -/
theorem c10_counterexample :
    c10st.mem c10tok = none
    ∧ ((ui_review_next c10st 1 (some c10tok) 5).1.highlights.map
        fun h => h.review_count) = [1]
    ∧ ((ui_review_next c10st 1 (some c10tok) 5).1.sessions.map
        fun r => r.highlights_reviewed) = [1] :=
  ⟨rfl, rfl, rfl⟩

/-- C10 (amended): when the advance token has no in-memory entry, the call
answers with the session-expired view (forcing a fresh pass), leaves the
in-memory store and every row's completion fields untouched — but it still
marks the named highlight reviewed and still increments the matching durable
row's highlights_reviewed counter. -/
theorem c10_lost_queue (st : AppState) (cid : Nat) (t : String) (now : ℝ)
    (hmem : st.mem t = none) :
    (ui_review_next st cid (some t) now).2 = NextView.expiredView
    ∧ (ui_review_next st cid (some t) now).1.mem = st.mem
    ∧ ((ui_review_next st cid (some t) now).1.sessions.map fun r => r.completed_at)
        = (st.sessions.map fun r => r.completed_at)
    ∧ ((ui_review_next st cid (some t) now).1.sessions.map fun r => r.is_completed)
        = (st.sessions.map fun r => r.is_completed)
    ∧ ((find_row (ui_review_next st cid (some t) now).1.sessions t).map
        fun r => r.highlights_reviewed)
        = ((find_row st.sessions t).map fun r => r.highlights_reviewed + 1)
    ∧ (∀ h, lookup_highlight st.highlights cid = some h →
        lookup_highlight (ui_review_next st cid (some t) now).1.highlights cid
          = some { h with last_reviewed_at := some now
                          review_count := h.review_count + 1 }) := by
  have hstep : ui_review_next st cid (some t) now
      = ({ highlights :=
            (match lookup_highlight st.highlights cid with
            | some h =>
              update_highlight st.highlights cid
                { h with last_reviewed_at := some now
                         review_count := h.review_count + 1 }
            | none => st.highlights)
           sessions := update_row st.sessions t
             (fun r => { r with highlights_reviewed := r.highlights_reviewed + 1 })
           mem := st.mem }, NextView.expiredView) := by
    rw [ui_review_next.eq_def]
    dsimp only
    rw [hmem]
  rw [hstep]
  refine ⟨rfl, rfl, ?_, ?_, ?_, ?_⟩
  · exact update_row_map_eq _ _ _ _ fun r => rfl
  · exact update_row_map_eq _ _ _ _ fun r => rfl
  · rw [find_row_update st.sessions t
      (fun r => { r with highlights_reviewed := r.highlights_reviewed + 1 })
      (fun r => rfl)]
    cases find_row st.sessions t <;> rfl
  · intro h hl
    dsimp only
    rw [hl]
    exact lookup_update_self _ _ _
      (by simpa using List.find?_some hl) (by rw [hl]; rfl)

theorem c10_lost_queue_witness :
    (ui_review_next c10st 1 (some c10tok) 5).2 = NextView.expiredView :=
  (c10_lost_queue c10st 1 c10tok 5 (by rfl)).1

/- ============ C9 ============ -/

theorem render_current_state (st1 : AppState) (sid : String) :
    (render_current st1 sid).1 = st1 := by
  rw [render_current]
  split
  · split <;> rfl
  · rfl

theorem render_current_token (st1 : AppState) (sid : String) :
    (render_current st1 sid).2.token = sid := by
  rw [render_current]
  split
  · split <;> rfl
  · rfl

/-- C9: a get-current call whose token is absent from the in-memory store or
older than 24 hours behaves exactly like a call with no token — a new queue
is built from the selector, a new token is issued, a new durable
ReviewSession row is appended — and after the creation no in-memory entry
older than 24 hours remains. -/
theorem c9_expired_fresh_session (rng : Rand) (st : AppState) (t : String)
    (now : ℝ) (today : ℤ) (n : ℕ) (fresh : String)
    (hexp : ∀ ms, st.mem t = some ms → now - ms.timestamp > 86400) :
    ui_review rng st (some t) false now today n fresh
        = ui_review rng st none false now today n fresh
    ∧ (ui_review rng st (some t) false now today n fresh).1.mem fresh
        = some { highlight_ids :=
                   (get_review_highlights rng now n st.highlights).map fun h => h.id
                 current_index := 0, timestamp := now }
    ∧ (ui_review rng st (some t) false now today n fresh).1.sessions
        = st.sessions ++ [new_row fresh now today n]
    ∧ (ui_review rng st (some t) false now today n fresh).2.token = fresh
    ∧ (∀ s ms,
        (ui_review rng st (some t) false now today n fresh).1.mem s = some ms →
        now - ms.timestamp ≤ 86400) := by
  have hsc : should_create_new st (some t) false now = true := by
    rw [should_create_new]
    cases hm : st.mem t with
    | none => rfl
    | some ms =>
      dsimp only
      rw [decide_eq_true (hexp ms hm)]
      rfl
  have heq : ui_review rng st (some t) false now today n fresh
      = render_current (create_session rng st now today n fresh) fresh := by
    rw [ui_review, if_pos hsc]
  have heq0 : ui_review rng st none false now today n fresh
      = render_current (create_session rng st now today n fresh) fresh := by
    rw [ui_review, if_pos (show should_create_new st none false now = true from rfl)]
  have hnojust : ¬ now - now > 86400 := by
    rw [sub_self]
    norm_num
  have hmem_fresh : (create_session rng st now today n fresh).mem fresh
      = some { highlight_ids :=
                 (get_review_highlights rng now n st.highlights).map fun h => h.id
               current_index := 0, timestamp := now } := by
    rw [create_session]
    dsimp only
    rw [if_pos rfl]
    dsimp only
    rw [if_neg hnojust]
  have hsweep : ∀ s ms,
      (create_session rng st now today n fresh).mem s = some ms →
      now - ms.timestamp ≤ 86400 := by
    intro s ms hms
    rw [create_session] at hms
    dsimp only at hms
    split at hms
    · rename_i d hd
      split at hms
      · cases hms
      · rename_i hage
        cases hms
        exact le_of_not_lt hage
    · cases hms
  refine ⟨heq.trans heq0.symm, ?_, ?_, ?_, ?_⟩
  · rw [heq, render_current_state]
    exact hmem_fresh
  · rw [heq, render_current_state]
    rfl
  · rw [heq, render_current_token]
  · intro s ms hms
    rw [heq, render_current_state] at hms
    exact hsweep s ms hms

def c9old : String := "old"

def c9fresh : String := "new"

def c9st : AppState :=
  { highlights := [], sessions := [], mem := fun _ => none }

theorem c9_expired_fresh_session_witness :
    (ui_review rng0 c9st (some c9old) false 0 0 5 c9fresh).2.token = c9fresh :=
  (c9_expired_fresh_session rng0 c9st c9old 0 0 5 c9fresh
    (by intro ms hc; exact absurd hc (by simp [c9st]))).2.2.2.1

/- ============ C4 ============ -/

/-- C4: starting from a live session whose queue holds 5 highlight ids and
whose durable row has zero reviews and no completion timestamp, five
advances with action=reviewed yield the completed signal exactly on the 5th
call; the durable row then shows highlights_reviewed = 5, is_completed =
true, and a completion timestamp equal to the time of the 5th call, while
after each of the first four calls the completion timestamp is still unset
— it is written exactly once, at the Completed transition — and the
in-memory entry is gone afterwards. -/
theorem c4_round_trip (st0 : AppState) (t : String) (ids : List Nat) (ts : ℝ)
    (r0 : ReviewSession) (c1 c2 c3 c4 c5 : Nat) (n1 n2 n3 n4 n5 : ℝ)
    (hmem : st0.mem t
      = some { highlight_ids := ids, current_index := 0, timestamp := ts })
    (hids : ids.length = 5)
    (hrow : find_row st0.sessions t = some r0)
    (hrev : r0.highlights_reviewed = 0)
    (hcpl : r0.completed_at = none) :
    let s1 := ui_review_next st0 c1 (some t) n1
    let s2 := ui_review_next s1.1 c2 (some t) n2
    let s3 := ui_review_next s2.1 c3 (some t) n3
    let s4 := ui_review_next s3.1 c4 (some t) n4
    let s5 := ui_review_next s4.1 c5 (some t) n5
    s5.2 = NextView.completedView
    ∧ s1.2 ≠ NextView.completedView
    ∧ s2.2 ≠ NextView.completedView
    ∧ s3.2 ≠ NextView.completedView
    ∧ s4.2 ≠ NextView.completedView
    ∧ (∃ r5, find_row s5.1.sessions t = some r5
        ∧ r5.highlights_reviewed = 5
        ∧ r5.is_completed = true
        ∧ r5.completed_at = some n5)
    ∧ (∃ r1, find_row s1.1.sessions t = some r1
        ∧ r1.highlights_reviewed = 1 ∧ r1.completed_at = none)
    ∧ (∃ r2, find_row s2.1.sessions t = some r2
        ∧ r2.highlights_reviewed = 2 ∧ r2.completed_at = none)
    ∧ (∃ r3, find_row s3.1.sessions t = some r3
        ∧ r3.highlights_reviewed = 3 ∧ r3.completed_at = none)
    ∧ (∃ r4, find_row s4.1.sessions t = some r4
        ∧ r4.highlights_reviewed = 4 ∧ r4.completed_at = none)
    ∧ s5.1.mem t = none := by
  intro s1 s2 s3 s4 s5
  obtain ⟨m1, q1, v1⟩ := ui_review_next_mid st0 c1 t n1 ids 0 ts hmem
    (by omega)
  obtain ⟨m2, q2, v2⟩ := ui_review_next_mid s1.1 c2 t n2 ids 1 ts m1
    (by omega)
  obtain ⟨m3, q3, v3⟩ := ui_review_next_mid s2.1 c3 t n3 ids 2 ts m2
    (by omega)
  obtain ⟨m4, q4, v4⟩ := ui_review_next_mid s3.1 c4 t n4 ids 3 ts m3
    (by omega)
  obtain ⟨m5, q5, v5⟩ := ui_review_next_end s4.1 c5 t n5 ids 4 ts m4
    (by omega)
  have fr1 : find_row s1.1.sessions t
      = some { r0 with highlights_reviewed := r0.highlights_reviewed + 1 } := by
    rw [q1, find_row_update st0.sessions t
      (fun r => { r with highlights_reviewed := r.highlights_reviewed + 1 })
      (fun r => rfl), hrow]
    rfl
  have fr2 : find_row s2.1.sessions t
      = some { r0 with highlights_reviewed := r0.highlights_reviewed + 1 + 1 } := by
    rw [q2, find_row_update s1.1.sessions t
      (fun r => { r with highlights_reviewed := r.highlights_reviewed + 1 })
      (fun r => rfl), fr1]
    rfl
  have fr3 : find_row s3.1.sessions t
      = some { r0 with
          highlights_reviewed := r0.highlights_reviewed + 1 + 1 + 1 } := by
    rw [q3, find_row_update s2.1.sessions t
      (fun r => { r with highlights_reviewed := r.highlights_reviewed + 1 })
      (fun r => rfl), fr2]
    rfl
  have fr4 : find_row s4.1.sessions t
      = some { r0 with
          highlights_reviewed := r0.highlights_reviewed + 1 + 1 + 1 + 1 } := by
    rw [q4, find_row_update s3.1.sessions t
      (fun r => { r with highlights_reviewed := r.highlights_reviewed + 1 })
      (fun r => rfl), fr3]
    rfl
  have fr5 : find_row s5.1.sessions t
      = some { r0 with
          highlights_reviewed := r0.highlights_reviewed + 1 + 1 + 1 + 1 + 1
          completed_at := some n5
          is_completed := true } := by
    rw [q5, find_row_update _ t
      (fun r => { r with completed_at := some n5, is_completed := true })
      (fun r => rfl), find_row_update s4.1.sessions t
      (fun r => { r with highlights_reviewed := r.highlights_reviewed + 1 })
      (fun r => rfl), fr4]
    rfl
  refine ⟨v5, v1, v2, v3, v4, ?_, ?_, ?_, ?_, ?_, m5⟩
  · exact ⟨_, fr5, by simp [hrev], rfl, rfl⟩
  · exact ⟨_, fr1, by simp [hrev], hcpl⟩
  · exact ⟨_, fr2, by simp [hrev], hcpl⟩
  · exact ⟨_, fr3, by simp [hrev], hcpl⟩
  · exact ⟨_, fr4, by simp [hrev], hcpl⟩

def c4tok : String := "s4"

def c4row : ReviewSession :=
  { user_id := 1, session_uuid := c4tok, started_at := 0, completed_at := none
    session_date := 0, target_count := 5, highlights_reviewed := 0
    highlights_discarded := 0, highlights_favorited := 0, is_completed := false }

noncomputable def c4st : AppState :=
  { highlights := [], sessions := [c4row]
    mem := fun s =>
      if s = c4tok then
        some { highlight_ids := [1, 2, 3, 4, 5], current_index := 0
               timestamp := 0 }
      else none }

theorem c4_round_trip_witness :
    let s1 := ui_review_next c4st 1 (some c4tok) 1
    let s2 := ui_review_next s1.1 2 (some c4tok) 2
    let s3 := ui_review_next s2.1 3 (some c4tok) 3
    let s4 := ui_review_next s3.1 4 (some c4tok) 4
    let s5 := ui_review_next s4.1 5 (some c4tok) 5
    s5.2 = NextView.completedView
    ∧ s1.2 ≠ NextView.completedView
    ∧ s2.2 ≠ NextView.completedView
    ∧ s3.2 ≠ NextView.completedView
    ∧ s4.2 ≠ NextView.completedView
    ∧ (∃ r5, find_row s5.1.sessions c4tok = some r5
        ∧ r5.highlights_reviewed = 5
        ∧ r5.is_completed = true
        ∧ r5.completed_at = some 5)
    ∧ (∃ r1, find_row s1.1.sessions c4tok = some r1
        ∧ r1.highlights_reviewed = 1 ∧ r1.completed_at = none)
    ∧ (∃ r2, find_row s2.1.sessions c4tok = some r2
        ∧ r2.highlights_reviewed = 2 ∧ r2.completed_at = none)
    ∧ (∃ r3, find_row s3.1.sessions c4tok = some r3
        ∧ r3.highlights_reviewed = 3 ∧ r3.completed_at = none)
    ∧ (∃ r4, find_row s4.1.sessions c4tok = some r4
        ∧ r4.highlights_reviewed = 4 ∧ r4.completed_at = none)
    ∧ s5.1.mem c4tok = none :=
  c4_round_trip c4st c4tok [1, 2, 3, 4, 5] 0 c4row 1 2 3 4 5 1 2 3 4 5
    (by simp [c4st]) rfl (by rfl) rfl rfl

end FreeWise
